import Mathlib

/-!
Verification of the line-chart data pipeline (`src/lineChart.tsx`).

The pipeline has two stages:
* the metric normalizer (`chartData` memo, lines 25-60): raw records →
  insertion-ordered map from metric name to its timestamp-sorted samples;
* the chart-spec builder (effect, lines 72-182): normalized map →
  unified sorted timeline, per-metric aligned series data, per-point
  color rule, tooltip formatter, legend.

Numbers: timestamps are JS numbers used as epoch millis, modelled as `Int`
(all inputs in scope are integral).  Parsed metric values are JS doubles
that are either a parsed decimal or `NaN`; they are modelled by `JsNumber`
(an exact rational or `nan`).  JS `Array.prototype.sort` with comparator
`(a, b) => a.timestamp - b.timestamp` is a stable sort by ascending
timestamp; a stable sort is extensionally unique, so it is modelled by a
stable insertion sort.
-/

/-- A JS number resulting from `parseFloat`: an exact decimal value or NaN. -/
inductive JsNumber
  | num (q : ℚ)
  | nan
deriving DecidableEq

/-- Numeric value of a digit character. -/
def digitVal (c : Char) : ℕ := c.toNat - 48

/-- Decimal value of a digit list. -/
def digitsToNat (ds : List Char) : ℕ :=
  ds.foldl (fun a c => 10 * a + digitVal c) 0

/-- Model of the ECMAScript builtin `parseFloat`: skip leading whitespace,
optional sign, then the longest `digits [. digits]` prefix; if no digit is
read the result is NaN.  (Exponents, `Infinity` and hex forms are outside
the inputs this program receives and are not modelled.) -/
def parseFloat (s : String) : JsNumber :=
  let cs := s.toList.dropWhile (fun c => c.isWhitespace)
  let signAndRest : ℚ × List Char :=
    match cs with
    | '-' :: rest => (-1, rest)
    | '+' :: rest => (1, rest)
    | _ => (1, cs)
  let ip := signAndRest.2.takeWhile (fun c => c.isDigit)
  let afterInt := signAndRest.2.dropWhile (fun c => c.isDigit)
  let fp : List Char :=
    match afterInt with
    | '.' :: rest => rest.takeWhile (fun c => c.isDigit)
    | _ => []
  if ip.isEmpty ∧ fp.isEmpty then JsNumber.nan
  else JsNumber.num (signAndRest.1 *
    ((digitsToNat ip : ℚ) + (digitsToNat fp : ℚ) / 10 ^ fp.length))

/-- A reading object under a metric key of a raw record:
`{ value: string, timestamp: number, status: string }`. -/
structure MetricReading where
  value : String
  timestamp : Int
  status : String
deriving DecidableEq

/-- A JS value stored under a key of a raw record: a reading object, a bare
number (like the `category` field), or `null`.  `typeof` is `"object"` for
`obj` and `nullVal`; the code's guard `typeof x === "object" && x !== null`
accepts exactly `obj`. -/
inductive JsValue
  | obj (r : MetricReading)
  | num (n : Int)
  | nullVal
deriving DecidableEq

/-- One raw input record (`DataPoint` in the source): an ordered set of
key/value fields.  The `category` field is just the field keyed
`"category"`; JS object keys are unique, which theorems assume as a
`Nodup` hypothesis where it matters. -/
structure RawRecord where
  fields : List (String × JsValue)
deriving DecidableEq

/-- A normalized sample: `{ timestamp, value: number, status }` as pushed by
the normalizer loop (source lines 45-49). -/
structure Sample where
  timestamp : Int
  value : JsNumber
  status : String
deriving DecidableEq

/-- The normalizer's output container: a JS `Map` from metric name to its
sample array, modelled as an insertion-ordered association list. -/
abbrev MetricsMap : Type := List (String × List Sample)

/-- Model of `map.get(k)` on an insertion-ordered map. -/
def mapGet (m : MetricsMap) (k : String) : Option (List Sample) :=
  match m with
  | [] => none
  | (k₀, l) :: rest => if k₀ = k then some l else mapGet rest k

/-- The key list of the map, in insertion order (`Array.from(map.keys())`). -/
def mapKeys (m : MetricsMap) : List String :=
  m.map (fun p => p.1)

/-- Model of source lines 42-49,
`if (!map.has(k)) map.set(k, []); map.get(k).push(s)`, on an
insertion-ordered map: append `s` to the entry of `k`, creating the entry
at the end if absent. -/
def pushSample (m : MetricsMap) (k : String) (s : Sample) : MetricsMap :=
  match m with
  | [] => [(k, [s])]
  | (k₀, l) :: rest =>
    if k₀ = k then (k₀, l ++ [s]) :: rest else (k₀, l) :: pushSample rest k s

/-- The body of the normalizer's field loop (source lines 40-51): skip the
`category` key, and push the parsed sample when the value passes the
`typeof === "object" && !== null` guard. -/
def normalizeField (acc : MetricsMap) (p : String × JsValue) : MetricsMap :=
  if p.1 = "category" then acc
  else
    match p.2 with
    | JsValue.obj rd =>
      pushSample acc p.1 ⟨rd.timestamp, parseFloat rd.value, rd.status⟩
    | _ => acc

/-- Source lines 37-52, one record: destructure away the `category` key and
run the field loop over the remaining fields. -/
def normalizeRecord (m : MetricsMap) (r : RawRecord) : MetricsMap :=
  r.fields.foldl normalizeField m

/-- The normalizer loop over all records, before the per-metric sort. -/
def metricsMapUnsorted (data : List RawRecord) : MetricsMap :=
  data.foldl normalizeRecord []

/-- Stable insertion of a sample into a timestamp-sorted list: the new
element goes before the first element it compares `≤` to. -/
def insertByTimestamp (s : Sample) : List Sample → List Sample
  | [] => [s]
  | b :: l =>
    if s.timestamp ≤ b.timestamp then s :: b :: l else b :: insertByTimestamp s l

/-- Source lines 55-57: `values.sort((a, b) => a.timestamp - b.timestamp)` —
a stable ascending sort by timestamp, modelled by stable insertion sort
(stable sorts are extensionally unique). -/
def sortByTimestamp (l : List Sample) : List Sample :=
  l.foldr insertByTimestamp []

/-- Source lines 25-60 (`chartData` body for non-empty input): normalize all
records, then sort each metric's samples by timestamp. -/
def chartDataOf (data : List RawRecord) : MetricsMap :=
  (metricsMapUnsorted data).map (fun p => (p.1, sortByTimestamp p.2))

/-- Source lines 25-26 and 60: the `chartData` memo, `none` modelling the JS
`null` returned for absent or empty input. -/
def chartData (data : Option (List RawRecord)) : Option MetricsMap :=
  match data with
  | none => none
  | some l => if l.isEmpty then none else some (chartDataOf l)

/-- Source lines 73-77: every timestamp of every metric, in map iteration
order (the multiset fed into the `Set`). -/
def allTimestampsList (m : MetricsMap) : List Int :=
  (m.map (fun p => p.2.map (fun s => s.timestamp))).flatten

/-- Source line 77: `Array.from(set).sort((a, b) => a - b)` — the
deduplicated timestamps in ascending order.  (The JS `Set` keeps the first
occurrence, `List.dedup` another occurrence; after the ascending sort of a
duplicate-free list the results coincide.) -/
def sortedTimestamps (m : MetricsMap) : List Int :=
  List.insertionSort (· ≤ ·) (allTimestampsList m).dedup

/-- Source line 85: `new Map(metricData.map(item => [item.timestamp, item]))`
followed by `.get(t)`: insertion is left to right, so the last sample with
a given timestamp wins. -/
def dataMapGet (metricData : List Sample) (t : Int) : Option Sample :=
  metricData.foldl (fun acc item => if item.timestamp = t then some item else acc)
    none

/-- Source lines 93-96: the aligned series data array — one entry per
unified-timeline position, the sample's value where the map has the
timestamp and `null` (here `none`) otherwise. -/
def seriesData (tl : List Int) (metricData : List Sample) : List (Option JsNumber) :=
  tl.map (fun timestamp => (dataMapGet metricData timestamp).map (fun dp => dp.value))

/-- Source lines 102-106: the fixed status → color table. -/
def statusColors (status : String) : Option String :=
  if status = "GOOD" then some ("#52c41a")
  else if status = "WARNING" then some ("#faad14")
  else if status = "ERROR" then some ("#f5222d")
  else none

/-- Source lines 98-108: the `itemStyle.color` callback.  `metricData` is the
metric's own sorted sample array and `dataIndex` is the index the renderer
reports for the point, i.e. its position on the unified timeline; an
out-of-range access yields JS `undefined`, handled by the `!dataPoint`
guard. -/
def itemStyleColor (metricData : List Sample) (dataIndex : ℕ) : String :=
  match metricData[dataIndex]? with
  | none => "#1890ff"
  | some dataPoint => (statusColors dataPoint.status).getD ("#1890ff")

/-- Stand-in for `Date.toLocaleString("zh-CN", …)` (source lines 123-131,
161-168): the claims treat the date text as opaque, so any concrete
rendering of the timestamp serves. -/
def formatDateTime (t : Int) : String :=
  toString t

/-- Stand-in for JS number-to-string interpolation of a sample value; the
exact digits are opaque to the claims, NaN prints as `"NaN"`. -/
def renderJsNumber : JsNumber → String
  | JsNumber.num q => toString q
  | JsNumber.nan => "NaN"

/-- One element of the `params` array echarts passes to the axis-trigger
tooltip formatter: series name, the shared data index, and the marker
markup. -/
structure TooltipParam where
  seriesName : String
  dataIndex : ℕ
  marker : String
deriving DecidableEq

/-- The line the formatter appends for one param (source lines 135-142):
`find` the first sample at the hovered timestamp in the metric's sorted
array; a metric with no sample there contributes nothing.  The source's
`chartData.get(param.seriesName)!` assumes the series name is a map key;
`(mapGet …).getD []` renders the same behaviour for the in-contract
inputs the theorems quantify over. -/
def tooltipLine (m : MetricsMap) (timestamp : Int) (param : TooltipParam) : String :=
  match ((mapGet m param.seriesName).getD []).find?
      (fun item => item.timestamp = timestamp) with
  | some dataPoint =>
    param.marker ++ " " ++ param.seriesName ++ ": " ++
      renderJsNumber dataPoint.value ++ " (" ++ dataPoint.status ++ ")<br/>"
  | none => ""

/-- Source lines 119-145: the tooltip formatter.  Empty params give `""`;
otherwise the hovered timestamp is read off the first param's data index
and one line per param with an exact sample is appended to the formatted
date header. -/
def tooltipFormatter (m : MetricsMap) (tl : List Int) (params : List TooltipParam) :
    String :=
  match params with
  | [] => ""
  | p₀ :: _ =>
    let timestamp := tl.getD p₀.dataIndex 0
    let dateStr := formatDateTime timestamp
    params.foldl (fun result param => result ++ tooltipLine m timestamp param)
      (dateStr ++ "<br/>")

/-- One series descriptor of the chart option (the fields with data content;
`type`, `smooth`, symbol and line styling are fixed configuration). -/
structure SeriesSpec where
  name : String
  data : List (Option JsNumber)
deriving DecidableEq

/-- The data-bearing content of the echarts option built in source lines
79-182: legend entries, category-axis labels, and the per-metric series. -/
structure ChartSpec where
  legend : List String
  xAxisData : List String
  seriesList : List SeriesSpec
deriving DecidableEq

/-- Source lines 79-182: build the option content from the normalized map. -/
def buildSpec (m : MetricsMap) : ChartSpec :=
  let tl := sortedTimestamps m
  { legend := mapKeys m
    xAxisData := tl.map formatDateTime
    seriesList := m.map (fun p => { name := p.1, data := seriesData tl p.2 }) }

/-- What the component shows: the `"No data available"` placeholder or the
chart built from the spec (source lines 207-224). -/
inductive ViewState
  | noData
  | chart (spec : ChartSpec)
deriving DecidableEq

/-- Source lines 207-222: the placeholder branch is taken when `chartData`
is `null` or the map is empty; otherwise the chart div mounts and the
effect builds the spec. -/
def view (cd : Option MetricsMap) : ViewState :=
  match cd with
  | none => ViewState.noData
  | some m => if m.isEmpty then ViewState.noData else ViewState.chart (buildSpec m)

/-- Whether the builder effect reaches `setOption`: it needs the chart div
mounted (the placeholder branch not taken, source line 207) and a non-null
`chartData` (the guard on source line 63). -/
def builderInvoked (cd : Option MetricsMap) : Bool :=
  (match view cd with
   | ViewState.noData => false
   | ViewState.chart _ => true) && cd.isSome

/-- The whole pipeline as one function: normalized map, unified timeline and
chart spec, or `none` when the input short-circuits to "no data". -/
def pipeline (data : Option (List RawRecord)) :
    Option (MetricsMap × List Int × ChartSpec) :=
  (chartData data).map (fun m => (m, sortedTimestamps m, buildSpec m))

/-- Two invocations of the pipeline on the same input, as a pair. -/
def pipelineTwice (data : Option (List RawRecord)) :
    Option (MetricsMap × List Int × ChartSpec) ×
      Option (MetricsMap × List Int × ChartSpec) :=
  (pipeline data, pipeline data)

/-- The sample list stored for a metric name, empty when the name is absent. -/
def samplesOf (m : MetricsMap) (name : String) : List Sample :=
  (mapGet m name).getD []

/-- The samples one field list contributes to a given metric name, in field
order: the parsed readings of the non-`category` fields keyed `name`. -/
def fieldSamples (fs : List (String × JsValue)) (name : String) : List Sample :=
  fs.filterMap (fun p =>
    if p.1 = name ∧ p.1 ≠ "category" then
      match p.2 with
      | JsValue.obj rd => some ⟨rd.timestamp, parseFloat rd.value, rd.status⟩
      | _ => none
    else none)

/-- Whether a JS value passes the reading-object guard of source line 41. -/
def isReading : JsValue → Bool
  | JsValue.obj _ => true
  | _ => false

/-- Whether a record carries a valid reading for `name`: some non-`category`
field keyed `name` holds an object value. -/
def contributes (r : RawRecord) (name : String) : Bool :=
  r.fields.any (fun p =>
    decide (p.1 = name) && decide (p.1 ≠ "category") && isReading p.2)

/-- Whether a metric has a sample at exactly timestamp `t`. -/
def hasSampleAt (m : MetricsMap) (name : String) (t : Int) : Bool :=
  (samplesOf m name).any (fun s => s.timestamp = t)

/-- The value-independent part of a sample: timestamp and status. -/
def sampleShape (s : Sample) : Int × String :=
  (s.timestamp, s.status)

/-- Rewrite the value string of a reading object; other JS values unchanged. -/
def mapFieldValue (f : String → String) : JsValue → JsValue
  | JsValue.obj rd => JsValue.obj ⟨f rd.value, rd.timestamp, rd.status⟩
  | v => v

/-- Rewrite every reading value string of one record. -/
def mapRecordValues (f : String → String) (r : RawRecord) : RawRecord :=
  ⟨r.fields.map (fun p => (p.1, mapFieldValue f p.2))⟩

/-- Rewrite every reading value string of every record. -/
def mapDataValues (f : String → String) (data : List RawRecord) : List RawRecord :=
  data.map (mapRecordValues f)

/-- Concrete input: record at timestamp 1000 carrying only the cpu metric. -/
def exRecord1 : RawRecord :=
  ⟨[("category", JsValue.num 1), ("cpu", JsValue.obj ⟨"10", 1000, "GOOD"⟩)]⟩

/-- Concrete input: record at timestamp 2000 carrying cpu and mem; the mem
reading has status ERROR. -/
def exRecord2 : RawRecord :=
  ⟨[("category", JsValue.num 2), ("cpu", JsValue.obj ⟨"20", 2000, "WARNING"⟩),
    ("mem", JsValue.obj ⟨"5", 2000, "ERROR"⟩)]⟩

/-- Concrete input: two records giving the cpu metric two samples sharing
timestamp 1000, values 1 then 2, in that arrival order. -/
def exDupRecord1 : RawRecord :=
  ⟨[("category", JsValue.num 1), ("cpu", JsValue.obj ⟨"1", 1000, "GOOD"⟩)]⟩

/-- Second record of the duplicate-timestamp input. -/
def exDupRecord2 : RawRecord :=
  ⟨[("category", JsValue.num 2), ("cpu", JsValue.obj ⟨"2", 1000, "WARNING"⟩)]⟩

/-! ### Lemmas about the stable timestamp sort -/

theorem perm_insertByTimestamp (s : Sample) (l : List Sample) :
    (insertByTimestamp s l).Perm (s :: l) := by
  induction l with
  | nil => simp [insertByTimestamp]
  | cons b t ih =>
    by_cases h : s.timestamp ≤ b.timestamp
    · simp [insertByTimestamp, h]
    · simp only [insertByTimestamp, if_neg h]
      exact (ih.cons b).trans (List.Perm.swap s b t)

theorem perm_sortByTimestamp (l : List Sample) : (sortByTimestamp l).Perm l := by
  induction l with
  | nil => simp [sortByTimestamp]
  | cons a t ih =>
    have h : sortByTimestamp (a :: t) = insertByTimestamp a (sortByTimestamp t) := rfl
    rw [h]
    exact (perm_insertByTimestamp a _).trans (ih.cons a)

theorem sorted_insertByTimestamp {s : Sample} {l : List Sample}
    (h : l.Sorted (fun a b => a.timestamp ≤ b.timestamp)) :
    (insertByTimestamp s l).Sorted (fun a b => a.timestamp ≤ b.timestamp) := by
  induction l with
  | nil => simp [insertByTimestamp]
  | cons b t ih =>
    rw [List.sorted_cons] at h
    by_cases hle : s.timestamp ≤ b.timestamp
    · simp only [insertByTimestamp, if_pos hle]
      rw [List.sorted_cons]
      refine ⟨?_, List.sorted_cons.mpr h⟩
      intro x hx
      rcases List.mem_cons.mp hx with hx | hx
      · subst hx; exact hle
      · exact le_trans hle (h.1 x hx)
    · simp only [insertByTimestamp, if_neg hle]
      rw [List.sorted_cons]
      refine ⟨?_, ih h.2⟩
      intro x hx
      have hx2 : x ∈ s :: t := (perm_insertByTimestamp s t).mem_iff.mp hx
      rcases List.mem_cons.mp hx2 with hx2 | hx2
      · subst hx2; exact le_of_lt (lt_of_not_le hle)
      · exact h.1 x hx2

theorem sorted_sortByTimestamp (l : List Sample) :
    (sortByTimestamp l).Sorted (fun a b => a.timestamp ≤ b.timestamp) := by
  induction l with
  | nil => simp [sortByTimestamp]
  | cons a t ih => exact sorted_insertByTimestamp ih

theorem filter_insertByTimestamp (s : Sample) (t : Int) (l : List Sample) :
    (insertByTimestamp s l).filter (fun x => x.timestamp = t) =
      if s.timestamp = t then s :: l.filter (fun x => x.timestamp = t)
      else l.filter (fun x => x.timestamp = t) := by
  induction l with
  | nil =>
    by_cases h : s.timestamp = t <;> simp [insertByTimestamp, h]
  | cons b r ih =>
    by_cases hle : s.timestamp ≤ b.timestamp
    · simp only [insertByTimestamp, if_pos hle]
      by_cases h : s.timestamp = t <;> simp [List.filter_cons, h]
    · simp only [insertByTimestamp, if_neg hle]
      rw [List.filter_cons, List.filter_cons, ih]
      by_cases h : s.timestamp = t
      · have hbt : ¬ b.timestamp = t := by
          intro hb
          exact hle (le_of_eq (h.trans hb.symm))
        simp [h, hbt]
      · by_cases hb : b.timestamp = t <;> simp [h, hb]

theorem filter_sortByTimestamp (t : Int) (l : List Sample) :
    (sortByTimestamp l).filter (fun x => x.timestamp = t) =
      l.filter (fun x => x.timestamp = t) := by
  induction l with
  | nil => rfl
  | cons a r ih =>
    have h : sortByTimestamp (a :: r) = insertByTimestamp a (sortByTimestamp r) := rfl
    rw [h, filter_insertByTimestamp, List.filter_cons, ih]
    by_cases ha : a.timestamp = t <;> simp [ha]

theorem map_sampleShape_insertByTimestamp {s₁ s₂ : Sample} {l₁ l₂ : List Sample}
    (hs : sampleShape s₁ = sampleShape s₂)
    (hl : l₁.map sampleShape = l₂.map sampleShape) :
    (insertByTimestamp s₁ l₁).map sampleShape =
      (insertByTimestamp s₂ l₂).map sampleShape := by
  have hts : s₁.timestamp = s₂.timestamp := congrArg Prod.fst hs
  induction l₁ generalizing l₂ with
  | nil =>
    have h2 : l₂ = [] := by
      have h0 : List.map sampleShape l₂ = [] := by simpa using hl.symm
      exact List.map_eq_nil_iff.mp h0
    subst h2
    simp [insertByTimestamp, hs]
  | cons b₁ r₁ ih =>
    cases l₂ with
    | nil => simp at hl
    | cons b₂ r₂ =>
      simp only [List.map_cons, List.cons.injEq] at hl
      have hbts : b₁.timestamp = b₂.timestamp := congrArg Prod.fst hl.1
      by_cases hle : s₁.timestamp ≤ b₁.timestamp
      · have hle2 : s₂.timestamp ≤ b₂.timestamp := by rw [← hts, ← hbts]; exact hle
        simp [insertByTimestamp, if_pos hle, if_pos hle2, hs, hl.1, hl.2]
      · have hle2 : ¬ s₂.timestamp ≤ b₂.timestamp := by rw [← hts, ← hbts]; exact hle
        simp only [insertByTimestamp, if_neg hle, if_neg hle2, List.map_cons]
        exact congrArg₂ (fun a b => a :: b) hl.1 (ih hl.2)

theorem map_sampleShape_sortByTimestamp {l₁ l₂ : List Sample}
    (hl : l₁.map sampleShape = l₂.map sampleShape) :
    (sortByTimestamp l₁).map sampleShape = (sortByTimestamp l₂).map sampleShape := by
  induction l₁ generalizing l₂ with
  | nil =>
    have h2 : l₂ = [] := by
      have h0 : List.map sampleShape l₂ = [] := by simpa using hl.symm
      exact List.map_eq_nil_iff.mp h0
    subst h2; rfl
  | cons a r ih =>
    cases l₂ with
    | nil => simp at hl
    | cons b r₂ =>
      simp only [List.map_cons, List.cons.injEq] at hl
      exact map_sampleShape_insertByTimestamp hl.1 (ih hl.2)

/-! ### Lemmas about the insertion-ordered metrics map -/

theorem mapGet_pushSample_self (m : MetricsMap) (k : String) (s : Sample) :
    mapGet (pushSample m k s) k = some ((mapGet m k).getD [] ++ [s]) := by
  induction m with
  | nil => simp [pushSample, mapGet]
  | cons p rest ih =>
    obtain ⟨k₀, l⟩ := p
    by_cases h : k₀ = k
    · subst h; simp [pushSample, mapGet]
    · simp [pushSample, mapGet, h, ih]

theorem mapGet_pushSample_ne (m : MetricsMap) (k : String) (s : Sample)
    {k₁ : String} (h : k ≠ k₁) :
    mapGet (pushSample m k s) k₁ = mapGet m k₁ := by
  induction m with
  | nil => simp [pushSample, mapGet, h]
  | cons p rest ih =>
    obtain ⟨k₀, l⟩ := p
    by_cases h₀ : k₀ = k
    · subst h₀; simp [pushSample, mapGet, h]
    · simp [pushSample, mapGet, h₀, ih]

theorem mapKeys_pushSample (m : MetricsMap) (k : String) (s : Sample) :
    mapKeys (pushSample m k s) =
      if k ∈ mapKeys m then mapKeys m else mapKeys m ++ [k] := by
  induction m with
  | nil => simp [pushSample, mapKeys]
  | cons p rest ih =>
    obtain ⟨k₀, l⟩ := p
    by_cases h : k₀ = k
    · subst h; simp [pushSample, mapKeys]
    · have hne : ¬ k = k₀ := fun hk => h hk.symm
      simp only [pushSample, if_neg h, mapKeys, List.map_cons] at ih ⊢
      rw [ih]
      by_cases hmem : k ∈ List.map (fun p => p.1) rest
      · simp [hmem, hne]
      · simp [hmem, hne]

theorem mem_mapKeys_iff (m : MetricsMap) (name : String) :
    name ∈ mapKeys m ↔ mapGet m name ≠ none := by
  induction m with
  | nil => simp [mapKeys, mapGet]
  | cons p rest ih =>
    obtain ⟨k₀, l⟩ := p
    by_cases h : k₀ = name
    · subst h; simp [mapKeys, mapGet]
    · have hne : ¬ name = k₀ := fun hk => h hk.symm
      have hshow : mapKeys ((k₀, l) :: rest) = k₀ :: mapKeys rest := rfl
      rw [hshow, List.mem_cons]
      simp only [mapGet, if_neg h]
      constructor
      · rintro (h1 | h1)
        · exact absurd h1 hne
        · exact ih.mp h1
      · intro h1
        exact Or.inr (ih.mpr h1)

theorem mapGet_mem (m : MetricsMap) {name : String} {l : List Sample}
    (h : mapGet m name = some l) : (name, l) ∈ m := by
  induction m with
  | nil => simp [mapGet] at h
  | cons p rest ih =>
    obtain ⟨k₀, l₀⟩ := p
    by_cases h₀ : k₀ = name
    · subst h₀
      simp [mapGet] at h
      subst h
      exact List.mem_cons_self _ _
    · simp only [mapGet, if_neg h₀] at h
      exact List.mem_cons_of_mem _ (ih h)

theorem mapGet_eq_of_mem_nodup {m : MetricsMap} {name : String} {l : List Sample}
    (hnd : (mapKeys m).Nodup) (h : (name, l) ∈ m) : mapGet m name = some l := by
  induction m with
  | nil => simp at h
  | cons p rest ih =>
    obtain ⟨k₀, l₀⟩ := p
    simp only [mapKeys, List.map_cons, List.nodup_cons] at hnd
    rcases List.mem_cons.mp h with h | h
    · have h1 : name = k₀ := congrArg Prod.fst h
      have h2 : l = l₀ := congrArg Prod.snd h
      simp [mapGet, h1, h2]
    · by_cases h₀ : k₀ = name
      · exfalso
        apply hnd.1
        subst h₀
        exact List.mem_map.mpr ⟨(k₀, l), h, rfl⟩
      · simp only [mapGet, if_neg h₀]
        exact ih hnd.2 h

theorem mapGet_mapValues (m : MetricsMap) (f : List Sample → List Sample)
    (name : String) :
    mapGet (m.map (fun p => (p.1, f p.2))) name = (mapGet m name).map f := by
  induction m with
  | nil => simp [mapGet]
  | cons p rest ih =>
    obtain ⟨k₀, l⟩ := p
    by_cases h : k₀ = name
    · subst h; simp [mapGet]
    · simp [mapGet, h, ih]

theorem fieldSamples_cons (p : String × JsValue) (rest : List (String × JsValue))
    (name : String) :
    fieldSamples (p :: rest) name =
      (if p.1 = name ∧ p.1 ≠ "category" then
        match p.2 with
        | JsValue.obj rd => [(⟨rd.timestamp, parseFloat rd.value, rd.status⟩ : Sample)]
        | _ => []
      else []) ++ fieldSamples rest name := by
  by_cases hc : p.1 = name ∧ p.1 ≠ "category"
  · obtain ⟨hc1, hc2⟩ := hc
    have hnc : ¬ name = "category" := hc1 ▸ hc2
    cases hv : p.2 with
    | obj rd => simp [fieldSamples, List.filterMap_cons, hc1, hc2, hnc, hv]
    | num n => simp [fieldSamples, List.filterMap_cons, hc1, hc2, hnc, hv]
    | nullVal => simp [fieldSamples, List.filterMap_cons, hc1, hc2, hnc, hv]
  · simp [fieldSamples, List.filterMap_cons, hc]

theorem samplesOf_foldl_normalizeField (fs : List (String × JsValue))
    (m : MetricsMap) (name : String) :
    samplesOf (fs.foldl normalizeField m) name =
      samplesOf m name ++ fieldSamples fs name := by
  induction fs generalizing m with
  | nil => simp [fieldSamples]
  | cons p rest ih =>
    rw [List.foldl_cons, ih, fieldSamples_cons]
    obtain ⟨k, v⟩ := p
    by_cases hcat : k = "category"
    · have hc : ¬ ((k, v).1 = name ∧ (k, v).1 ≠ "category") := fun hc => hc.2 hcat
      simp [normalizeField, hcat, hc]
    · cases v with
      | obj rd =>
        by_cases hk : k = name
        · subst hk
          simp [normalizeField, hcat, samplesOf, mapGet_pushSample_self,
            List.append_assoc]
        · have hk2 : (k : String) ≠ name := hk
          simp [normalizeField, hcat, samplesOf, mapGet_pushSample_ne _ _ _ hk2, hk]
      | num n => simp [normalizeField, hcat]
      | nullVal => simp [normalizeField, hcat]

theorem samplesOf_normalizeRecord (m : MetricsMap) (r : RawRecord) (name : String) :
    samplesOf (normalizeRecord m r) name =
      samplesOf m name ++ fieldSamples r.fields name :=
  samplesOf_foldl_normalizeField r.fields m name

theorem samplesOf_foldl_normalizeRecord (data : List RawRecord) (m : MetricsMap)
    (name : String) :
    samplesOf (data.foldl normalizeRecord m) name =
      samplesOf m name ++ (data.map (fun r => fieldSamples r.fields name)).flatten := by
  induction data generalizing m with
  | nil => simp
  | cons r rest ih =>
    rw [List.foldl_cons, ih, samplesOf_normalizeRecord]
    simp [List.append_assoc]

theorem samplesOf_metricsMapUnsorted (data : List RawRecord) (name : String) :
    samplesOf (metricsMapUnsorted data) name =
      (data.map (fun r => fieldSamples r.fields name)).flatten := by
  have h := samplesOf_foldl_normalizeRecord data [] name
  simpa [metricsMapUnsorted, samplesOf, mapGet] using h

/-! ### Structural invariants of the normalizer output -/

theorem foldl_preserves {β : Type} {P : MetricsMap → Prop}
    (step : MetricsMap → β → MetricsMap)
    (hstep : ∀ m b, P m → P (step m b)) :
    ∀ (l : List β) (m : MetricsMap), P m → P (l.foldl step m) := by
  intro l
  induction l with
  | nil => intro m hm; exact hm
  | cons b rest ih =>
    intro m hm
    exact ih (step m b) (hstep m b hm)

theorem entries_nonempty_pushSample {m : MetricsMap} (k : String) (s : Sample)
    (h : ∀ p ∈ m, p.2 ≠ []) : ∀ p ∈ pushSample m k s, p.2 ≠ [] := by
  induction m with
  | nil =>
    intro p hp
    simp [pushSample] at hp
    subst hp
    simp
  | cons q rest ih =>
    obtain ⟨k₀, l⟩ := q
    by_cases hk : k₀ = k
    · subst hk
      intro p hp
      simp only [pushSample, if_pos rfl] at hp
      rcases List.mem_cons.mp hp with hp | hp
      · subst hp; simp
      · exact h p (List.mem_cons_of_mem _ hp)
    · intro p hp
      simp only [pushSample, if_neg hk] at hp
      rcases List.mem_cons.mp hp with hp | hp
      · subst hp
        exact h (k₀, l) (List.mem_cons_self _ _)
      · exact ih (fun q hq => h q (List.mem_cons_of_mem _ hq)) p hp

theorem entries_nonempty_normalizeField {m : MetricsMap} (p : String × JsValue)
    (h : ∀ q ∈ m, q.2 ≠ []) : ∀ q ∈ normalizeField m p, q.2 ≠ [] := by
  obtain ⟨k, v⟩ := p
  by_cases hcat : k = "category"
  · simpa [normalizeField, hcat] using h
  · cases v with
    | obj rd =>
      simpa [normalizeField, hcat] using entries_nonempty_pushSample _ _ h
    | num n => simpa [normalizeField, hcat] using h
    | nullVal => simpa [normalizeField, hcat] using h

theorem entries_nonempty_metricsMapUnsorted (data : List RawRecord) :
    ∀ p ∈ metricsMapUnsorted data, p.2 ≠ [] := by
  refine @foldl_preserves _ (fun m => ∀ p ∈ m, p.2 ≠ []) normalizeRecord ?_ data [] ?_
  · intro m r hm
    exact @foldl_preserves _ (fun m => ∀ p ∈ m, p.2 ≠ []) normalizeField
      (fun m₁ q hq => entries_nonempty_normalizeField q hq) r.fields m hm
  · intro p hp
    simp at hp

theorem keys_nodup_pushSample {m : MetricsMap} (k : String) (s : Sample)
    (h : (mapKeys m).Nodup) : (mapKeys (pushSample m k s)).Nodup := by
  rw [mapKeys_pushSample]
  by_cases hmem : k ∈ mapKeys m
  · simpa [hmem] using h
  · simp only [if_neg hmem]
    rw [List.nodup_append]
    refine ⟨h, List.nodup_singleton k, ?_⟩
    intro a ha hak
    rw [List.mem_singleton] at hak
    subst hak
    exact hmem ha

theorem keys_nodup_normalizeField {m : MetricsMap} (p : String × JsValue)
    (h : (mapKeys m).Nodup) : (mapKeys (normalizeField m p)).Nodup := by
  obtain ⟨k, v⟩ := p
  by_cases hcat : k = "category"
  · simpa [normalizeField, hcat] using h
  · cases v with
    | obj rd => simpa [normalizeField, hcat] using keys_nodup_pushSample _ _ h
    | num n => simpa [normalizeField, hcat] using h
    | nullVal => simpa [normalizeField, hcat] using h

theorem keys_nodup_metricsMapUnsorted (data : List RawRecord) :
    (mapKeys (metricsMapUnsorted data)).Nodup := by
  refine @foldl_preserves _ (fun m => (mapKeys m).Nodup) normalizeRecord ?_ data [] ?_
  · intro m r hm
    exact @foldl_preserves _ (fun m => (mapKeys m).Nodup) normalizeField
      (fun m₁ q hq => keys_nodup_normalizeField q hq) r.fields m hm
  · simp [mapKeys]

/-! ### From the unsorted map to `chartDataOf` -/

theorem mapGet_chartDataOf (data : List RawRecord) (name : String) :
    mapGet (chartDataOf data) name =
      (mapGet (metricsMapUnsorted data) name).map sortByTimestamp :=
  mapGet_mapValues (metricsMapUnsorted data) sortByTimestamp name

theorem mapKeys_chartDataOf (data : List RawRecord) :
    mapKeys (chartDataOf data) = mapKeys (metricsMapUnsorted data) := by
  simp [chartDataOf, mapKeys, List.map_map, Function.comp]

theorem samplesOf_chartDataOf (data : List RawRecord) (name : String) :
    samplesOf (chartDataOf data) name =
      sortByTimestamp (samplesOf (metricsMapUnsorted data) name) := by
  rw [samplesOf, mapGet_chartDataOf]
  cases h : mapGet (metricsMapUnsorted data) name with
  | none => simp [samplesOf, h, sortByTimestamp]
  | some l => simp [samplesOf, h]

theorem keys_nodup_chartDataOf (data : List RawRecord) :
    (mapKeys (chartDataOf data)).Nodup := by
  rw [mapKeys_chartDataOf]
  exact keys_nodup_metricsMapUnsorted data

theorem entries_nonempty_chartDataOf (data : List RawRecord) :
    ∀ p ∈ chartDataOf data, p.2 ≠ [] := by
  intro p hp
  rcases List.mem_map.mp hp with ⟨q, hq, hpq⟩
  subst hpq
  intro hnil
  simp only at hnil
  have h0 : q.2 ≠ [] := entries_nonempty_metricsMapUnsorted data q hq
  have hperm := perm_sortByTimestamp q.2
  rw [hnil] at hperm
  exact h0 hperm.symm.eq_nil

/-! ### Lemmas about the unified timeline -/

theorem sorted_sortedTimestamps (m : MetricsMap) :
    (sortedTimestamps m).Sorted (· ≤ ·) :=
  List.sorted_insertionSort _ _

theorem nodup_sortedTimestamps (m : MetricsMap) :
    (sortedTimestamps m).Nodup :=
  ((List.perm_insertionSort _ _).nodup_iff).mpr (List.nodup_dedup _)

theorem mem_sortedTimestamps (m : MetricsMap) (t : Int) :
    t ∈ sortedTimestamps m ↔ ∃ p ∈ m, ∃ s ∈ p.2, s.timestamp = t := by
  rw [sortedTimestamps, List.mem_insertionSort, List.mem_dedup, allTimestampsList,
    List.mem_flatten]
  constructor
  · rintro ⟨l, hl, ht⟩
    rcases List.mem_map.mp hl with ⟨p, hp, hpl⟩
    subst hpl
    rcases List.mem_map.mp ht with ⟨s, hs, hst⟩
    exact ⟨p, hp, s, hs, hst⟩
  · rintro ⟨p, hp, s, hs, hst⟩
    refine ⟨p.2.map (fun s => s.timestamp), List.mem_map.mpr ⟨p, hp, rfl⟩, ?_⟩
    exact List.mem_map.mpr ⟨s, hs, hst⟩

theorem length_sortedTimestamps (m : MetricsMap) :
    (sortedTimestamps m).length = (allTimestampsList m).toFinset.card := by
  rw [List.card_toFinset, sortedTimestamps, List.length_insertionSort]

theorem length_sortedTimestamps_le (m : MetricsMap) :
    (sortedTimestamps m).length ≤ (m.map (fun p => p.2.length)).sum := by
  rw [sortedTimestamps, List.length_insertionSort]
  calc (allTimestampsList m).dedup.length
      ≤ (allTimestampsList m).length := (List.dedup_sublist _).length_le
    _ = (m.map (fun p => p.2.length)).sum := by
        rw [allTimestampsList, List.length_flatten, List.map_map]
        have hfun : (List.length ∘ fun p : String × List Sample =>
            List.map (fun s => s.timestamp) p.2) = fun p => p.2.length := by
          funext p
          simp
        rw [hfun]

theorem mem_sortedTimestamps_samplesOf {m : MetricsMap}
    (hnd : (mapKeys m).Nodup) (t : Int) :
    t ∈ sortedTimestamps m ↔
      ∃ name, ∃ s ∈ samplesOf m name, s.timestamp = t := by
  rw [mem_sortedTimestamps]
  constructor
  · rintro ⟨p, hp, s, hs, hst⟩
    refine ⟨p.1, s, ?_, hst⟩
    have hget : mapGet m p.1 = some p.2 := mapGet_eq_of_mem_nodup hnd (by
      rcases p with ⟨a, b⟩; exact hp)
    rw [samplesOf, hget]
    exact hs
  · rintro ⟨name, s, hs, hst⟩
    rw [samplesOf] at hs
    cases hget : mapGet m name with
    | none => rw [hget] at hs; simp at hs
    | some l =>
      rw [hget] at hs
      exact ⟨(name, l), mapGet_mem m hget, s, hs, hst⟩

/-! ### Lemmas about the per-series alignment map and `find` -/

theorem find?_eq_head?_filter {α : Type} (p : α → Bool) (l : List α) :
    l.find? p = (l.filter p).head? := by
  induction l with
  | nil => rfl
  | cons b r ih =>
    by_cases h : p b
    · rw [List.find?_cons_of_pos _ h, List.filter_cons, if_pos h]
      rfl
    · rw [List.find?_cons_of_neg _ h, List.filter_cons, if_neg h]
      exact ih

theorem dataMapGet_foldl_acc (t : Int) (l : List Sample) (acc : Option Sample) :
    l.foldl (fun acc item => if item.timestamp = t then some item else acc) acc =
      (l.reverse.find? (fun s => s.timestamp = t)).or acc := by
  induction l generalizing acc with
  | nil => simp
  | cons b r ih =>
    rw [List.foldl_cons, ih, List.reverse_cons, List.find?_append, Option.or_assoc]
    congr 1
    by_cases h : b.timestamp = t
    · rw [List.find?_cons_of_pos _ (by simpa using h)]
      simp [h]
    · rw [List.find?_cons_of_neg _ (by simpa using h), List.find?_nil]
      simp [h]

theorem dataMapGet_eq_find?_reverse (l : List Sample) (t : Int) :
    dataMapGet l t = l.reverse.find? (fun s => s.timestamp = t) := by
  rw [dataMapGet, dataMapGet_foldl_acc, Option.or_none]

theorem dataMapGet_eq_getLast?_filter (l : List Sample) (t : Int) :
    dataMapGet l t = (l.filter (fun s => s.timestamp = t)).getLast? := by
  rw [dataMapGet_eq_find?_reverse, find?_eq_head?_filter, List.filter_reverse,
    List.head?_reverse]

theorem dataMapGet_eq_none_iff (l : List Sample) (t : Int) :
    dataMapGet l t = none ↔ ∀ s ∈ l, s.timestamp ≠ t := by
  rw [dataMapGet_eq_find?_reverse, List.find?_eq_none]
  constructor
  · intro h s hs
    have := h s (List.mem_reverse.mpr hs)
    simpa using this
  · intro h s hs
    have := h s (List.mem_reverse.mp hs)
    simpa using this

theorem dataMapGet_eq_some (l : List Sample) (t : Int) {s : Sample}
    (h : dataMapGet l t = some s) : s ∈ l ∧ s.timestamp = t := by
  rw [dataMapGet_eq_find?_reverse] at h
  refine ⟨List.mem_reverse.mp (List.mem_of_find?_eq_some h), ?_⟩
  have := List.find?_some h
  simpa using this

/-! ### String concatenation helpers for the tooltip -/

/-- Concatenation of a list of strings, in order. -/
def joinStrings : List String → String
  | [] => ""
  | s :: rest => s ++ joinStrings rest

theorem foldl_append_tooltipLine (m : MetricsMap) (t : Int)
    (params : List TooltipParam) (init : String) :
    params.foldl (fun result param => result ++ tooltipLine m t param) init =
      init ++ joinStrings (params.map (tooltipLine m t)) := by
  induction params generalizing init with
  | nil => simp [joinStrings, String.append_empty]
  | cons p rest ih =>
    rw [List.foldl_cons, ih, List.map_cons, joinStrings, ← String.append_assoc]

theorem tooltipLine_ne_empty {m : MetricsMap} {t : Int} {p : TooltipParam}
    {dp : Sample}
    (h : (samplesOf m p.seriesName).find? (fun s => s.timestamp = t) = some dp) :
    tooltipLine m t p ≠ "" := by
  rw [tooltipLine]
  rw [samplesOf] at h
  rw [h]
  intro hcontra
  have hlen := congrArg String.length hcontra
  rw [String.length_append, String.length_append, String.length_append,
    String.length_append, String.length_append, String.length_append,
    String.length_append] at hlen
  have h0 : ("" : String).length = 0 := rfl
  have h1 : (" ").length = 1 := rfl
  have h2 : (": ").length = 2 := rfl
  have h3 : (" (").length = 2 := rfl
  have h4 : (")<br/>").length = 6 := rfl
  rw [h0, h1, h2, h3, h4] at hlen
  omega

theorem tooltipLine_eq_empty_iff (m : MetricsMap) (t : Int) (p : TooltipParam) :
    tooltipLine m t p = "" ↔ hasSampleAt m p.seriesName t = false := by
  cases h : (samplesOf m p.seriesName).find? (fun s => s.timestamp = t) with
  | none =>
    rw [List.find?_eq_none] at h
    constructor
    · intro _
      rw [hasSampleAt]
      rw [List.any_eq_false]
      intro s hs
      simpa using h s hs
    · intro _
      rw [tooltipLine]
      rw [samplesOf] at h
      rw [List.find?_eq_none.mpr h]
  | some dp =>
    constructor
    · intro hc
      exact absurd hc (tooltipLine_ne_empty h)
    · intro hfalse
      exfalso
      rw [hasSampleAt, List.any_eq_false] at hfalse
      have hmem := List.mem_of_find?_eq_some h
      have hts := List.find?_some h
      exact hfalse dp hmem hts

theorem tooltipLine_of_find (m : MetricsMap) (t : Int) (p : TooltipParam)
    {dp : Sample}
    (h : (samplesOf m p.seriesName).find? (fun s => s.timestamp = t) = some dp) :
    tooltipLine m t p = p.marker ++ " " ++ p.seriesName ++ ": " ++
      renderJsNumber dp.value ++ " (" ++ dp.status ++ ")<br/>" := by
  rw [tooltipLine]
  rw [samplesOf] at h
  rw [h]

/-! ### Counting lemmas for the normalizer -/

theorem fieldSamples_head_cases (name : String) (p : String × JsValue) :
    ((if p.1 = name ∧ p.1 ≠ "category" then
        match p.2 with
        | JsValue.obj rd => [(⟨rd.timestamp, parseFloat rd.value, rd.status⟩ : Sample)]
        | _ => []
      else []) = []) ↔
      (decide (p.1 = name) && decide (p.1 ≠ "category") && isReading p.2) = false := by
  obtain ⟨k, v⟩ := p
  by_cases h1 : k = name
  · subst h1
    by_cases h2 : k = "category"
    · subst h2
      simp
    · cases hv : v with
      | obj rd => simp [h2, hv, isReading]
      | num n => simp [h2, hv, isReading]
      | nullVal => simp [h2, hv, isReading]
  · simp [h1]

theorem fieldSamples_eq_nil_iff (fs : List (String × JsValue)) (name : String) :
    fieldSamples fs name = [] ↔
      fs.any (fun p => decide (p.1 = name) && decide (p.1 ≠ "category") &&
        isReading p.2) = false := by
  induction fs with
  | nil => simp [fieldSamples]
  | cons p rest ih =>
    rw [fieldSamples_cons, List.any_cons, List.append_eq_nil, Bool.or_eq_false_iff, ih]
    constructor
    · rintro ⟨hhead, htail⟩
      exact ⟨(fieldSamples_head_cases name p).mp hhead, htail⟩
    · rintro ⟨hhead, htail⟩
      exact ⟨(fieldSamples_head_cases name p).mpr hhead, htail⟩

theorem contributes_iff (r : RawRecord) (name : String) :
    contributes r name = true ↔ fieldSamples r.fields name ≠ [] := by
  have h := fieldSamples_eq_nil_iff r.fields name
  rw [contributes]
  constructor
  · intro ht hnil
    have hf := h.mp hnil
    rw [ht] at hf
    exact absurd hf (by decide)
  · intro hne
    cases hb : r.fields.any (fun p => decide (p.1 = name) &&
        decide (p.1 ≠ "category") && isReading p.2) with
    | false => exact absurd (h.mpr hb) hne
    | true => rfl

theorem fieldSamples_nil_of_not_mem {fs : List (String × JsValue)} {name : String}
    (h : name ∉ fs.map (fun p => p.1)) : fieldSamples fs name = [] := by
  induction fs with
  | nil => rfl
  | cons p rest ih =>
    rw [List.map_cons, List.mem_cons] at h
    push_neg at h
    rw [fieldSamples_cons]
    have hc : ¬ (p.1 = name ∧ p.1 ≠ "category") := fun hc => h.1 hc.1.symm
    rw [if_neg hc, List.nil_append]
    exact ih h.2

theorem pred_imp_key_eq {name : String} {p : String × JsValue}
    (h : (decide (p.1 = name) && decide (p.1 ≠ "category") && isReading p.2) = true) :
    p.1 = name := by
  simp only [Bool.and_eq_true, decide_eq_true_eq] at h
  exact h.1.1

theorem fieldSamples_head_length (name : String) (p : String × JsValue) :
    (if p.1 = name ∧ p.1 ≠ "category" then
        match p.2 with
        | JsValue.obj rd => [(⟨rd.timestamp, parseFloat rd.value, rd.status⟩ : Sample)]
        | _ => []
      else []).length =
      if (decide (p.1 = name) && decide (p.1 ≠ "category") && isReading p.2) = true
      then 1 else 0 := by
  obtain ⟨k, v⟩ := p
  by_cases h1 : k = name
  · subst h1
    by_cases h2 : k = "category"
    · subst h2
      simp
    · cases hv : v with
      | obj rd => simp [h2, hv, isReading]
      | num n => simp [h2, hv, isReading]
      | nullVal => simp [h2, hv, isReading]
  · simp [h1]

theorem length_fieldSamples_of_nodup {fs : List (String × JsValue)} {name : String}
    (h : (fs.map (fun p => p.1)).Nodup) :
    (fieldSamples fs name).length =
      if fs.any (fun p => decide (p.1 = name) && decide (p.1 ≠ "category") &&
        isReading p.2) = true then 1 else 0 := by
  induction fs with
  | nil => simp [fieldSamples]
  | cons p rest ih =>
    rw [List.map_cons, List.nodup_cons] at h
    rw [fieldSamples_cons, List.length_append, fieldSamples_head_length, List.any_cons]
    by_cases hpred : (decide (p.1 = name) && decide (p.1 ≠ "category") &&
        isReading p.2) = true
    · have h1 : p.1 = name := pred_imp_key_eq hpred
      have hrest : fieldSamples rest name = [] :=
        fieldSamples_nil_of_not_mem (h1 ▸ h.1)
      rw [hpred, hrest]
      simp
    · rw [Bool.not_eq_true] at hpred
      rw [hpred, ih h.2]
      rw [Bool.false_or]
      simp

theorem sum_map_ite_countP {α : Type} (p : α → Bool) (l : List α) :
    (l.map (fun x => if p x = true then 1 else 0)).sum = l.countP p := by
  induction l with
  | nil => simp
  | cons a rest ih =>
    rw [List.map_cons, List.sum_cons, List.countP_cons, ih]
    by_cases h : p a = true
    · simp [h, Nat.add_comm]
    · simp [h]

/-! ### Value-string isolation lemmas -/

theorem fieldSamples_mapRecordValues (f : String → String)
    (fs : List (String × JsValue)) (name : String) :
    (fieldSamples (fs.map (fun p => (p.1, mapFieldValue f p.2))) name).map sampleShape =
      (fieldSamples fs name).map sampleShape := by
  induction fs with
  | nil => rfl
  | cons p rest ih =>
    rw [List.map_cons, fieldSamples_cons, fieldSamples_cons, List.map_append,
      List.map_append, ih]
    congr 1
    obtain ⟨k, v⟩ := p
    by_cases h1 : k = name
    · subst h1
      by_cases h2 : k = "category"
      · subst h2
        simp
      · cases hv : v with
        | obj rd => simp [h2, hv, mapFieldValue, sampleShape]
        | num n => simp [h2, hv, mapFieldValue]
        | nullVal => simp [h2, hv, mapFieldValue]
    · simp [h1, mapFieldValue]

theorem samplesOf_shapes_mapDataValues (f : String → String) (data : List RawRecord)
    (name : String) :
    (samplesOf (metricsMapUnsorted (mapDataValues f data)) name).map sampleShape =
      (samplesOf (metricsMapUnsorted data) name).map sampleShape := by
  rw [samplesOf_metricsMapUnsorted, samplesOf_metricsMapUnsorted, mapDataValues,
    List.map_map, List.map_flatten, List.map_flatten, List.map_map, List.map_map]
  congr 1
  apply List.map_congr_left
  intro r hr
  exact fieldSamples_mapRecordValues f r.fields name

theorem samplesOf_shapes_chartDataOf (f : String → String) (data : List RawRecord)
    (name : String) :
    (samplesOf (chartDataOf (mapDataValues f data)) name).map sampleShape =
      (samplesOf (chartDataOf data) name).map sampleShape := by
  rw [samplesOf_chartDataOf, samplesOf_chartDataOf]
  exact map_sampleShape_sortByTimestamp (samplesOf_shapes_mapDataValues f data name)

theorem mem_keys_iff_samplesOf {m : MetricsMap} (hent : ∀ p ∈ m, p.2 ≠ [])
    (name : String) :
    name ∈ mapKeys m ↔ samplesOf m name ≠ [] := by
  rw [mem_mapKeys_iff]
  constructor
  · intro h
    cases hget : mapGet m name with
    | none => exact absurd hget h
    | some l =>
      rw [samplesOf, hget]
      simpa using hent (name, l) (mapGet_mem m hget)
  · intro h hnone
    rw [samplesOf, hnone] at h
    exact h rfl

theorem mem_keys_chartDataOf_mapDataValues (f : String → String)
    (data : List RawRecord) (name : String) :
    name ∈ mapKeys (chartDataOf (mapDataValues f data)) ↔
      name ∈ mapKeys (chartDataOf data) := by
  rw [mem_keys_iff_samplesOf (entries_nonempty_chartDataOf _) name,
    mem_keys_iff_samplesOf (entries_nonempty_chartDataOf _) name]
  have hsh := samplesOf_shapes_chartDataOf f data name
  have hiff : samplesOf (chartDataOf (mapDataValues f data)) name = [] ↔
      samplesOf (chartDataOf data) name = [] := by
    constructor
    · intro hnil
      rw [hnil] at hsh
      have h0 : List.map sampleShape (samplesOf (chartDataOf data) name) = [] := by
        simpa using hsh.symm
      exact List.map_eq_nil_iff.mp h0
    · intro hnil
      rw [hnil] at hsh
      have h0 : List.map sampleShape
          (samplesOf (chartDataOf (mapDataValues f data)) name) = [] := by
        simpa using hsh
      exact List.map_eq_nil_iff.mp h0
  exact not_congr hiff

theorem sortedTimestamps_chartDataOf_mapDataValues (f : String → String)
    (data : List RawRecord) :
    sortedTimestamps (chartDataOf (mapDataValues f data)) =
      sortedTimestamps (chartDataOf data) := by
  apply List.eq_of_perm_of_sorted ?_ (sorted_sortedTimestamps _)
    (sorted_sortedTimestamps _)
  rw [List.perm_ext_iff_of_nodup (nodup_sortedTimestamps _) (nodup_sortedTimestamps _)]
  intro t
  rw [mem_sortedTimestamps_samplesOf (keys_nodup_chartDataOf _) t,
    mem_sortedTimestamps_samplesOf (keys_nodup_chartDataOf _) t]
  have hmem : ∀ l : List Sample,
      (∃ s ∈ l, s.timestamp = t) ↔ t ∈ (l.map sampleShape).map Prod.fst := by
    intro l
    rw [List.map_map]
    constructor
    · rintro ⟨s, hs, hst⟩
      exact List.mem_map.mpr ⟨s, hs, hst⟩
    · intro h
      rcases List.mem_map.mp h with ⟨s, hs, hst⟩
      exact ⟨s, hs, hst⟩
  constructor
  · rintro ⟨name, s, hs, hst⟩
    refine ⟨name, ?_⟩
    rw [hmem, ← samplesOf_shapes_chartDataOf f data name, ← hmem]
    exact ⟨s, hs, hst⟩
  · rintro ⟨name, s, hs, hst⟩
    refine ⟨name, ?_⟩
    rw [hmem, samplesOf_shapes_chartDataOf f data name, ← hmem]
    exact ⟨s, hs, hst⟩

/-! ### Claim theorems -/

/-- C1 (code bug): the claim says the color of each rendered point is
determined by the status of the sample actually rendered at that aligned
position.  The code indexes the metric's own sorted sample array with the
unified-timeline index (`metricData[params.dataIndex]`), so for a metric
with a gap the point rendered at position 1 (the mem sample with status
ERROR, which the claim maps to the ERROR table color) is colored with the
default color instead: the callback reads past the end of mem's
one-element array. -/
theorem itemStyleColor_misaligned_on_gap :
    mapKeys (chartDataOf [exRecord1, exRecord2]) = ["cpu", "mem"] ∧
    sortedTimestamps (chartDataOf [exRecord1, exRecord2]) = [1000, 2000] ∧
    (samplesOf (chartDataOf [exRecord1, exRecord2]) ("mem")).map sampleShape =
      [(2000, "ERROR")] ∧
    (dataMapGet (samplesOf (chartDataOf [exRecord1, exRecord2]) ("mem")) 2000).map
      (fun s => s.status) = some ("ERROR") ∧
    statusColors ("ERROR") = some ("#f5222d") ∧
    itemStyleColor (samplesOf (chartDataOf [exRecord1, exRecord2]) ("mem")) 1 =
      "#1890ff" :=
  ⟨rfl, rfl, rfl, rfl, rfl, rfl⟩

/-- C3: the unified timeline is the deduplicated union of all metrics'
timestamps in ascending order; its length equals the number of distinct
timestamps across all metrics and is at most the sum of the per-metric
series lengths. -/
theorem unified_timeline_spec (m : MetricsMap) :
    (sortedTimestamps m).Sorted (· ≤ ·) ∧
    (sortedTimestamps m).Nodup ∧
    (∀ t : Int, t ∈ sortedTimestamps m ↔ ∃ p ∈ m, ∃ s ∈ p.2, s.timestamp = t) ∧
    (sortedTimestamps m).length = (allTimestampsList m).toFinset.card ∧
    (sortedTimestamps m).length ≤ (m.map (fun p => p.2.length)).sum :=
  ⟨sorted_sortedTimestamps m, nodup_sortedTimestamps m, mem_sortedTimestamps m,
    length_sortedTimestamps m, length_sortedTimestamps_le m⟩

/-- C7: empty or absent input yields the empty result: the `chartData` memo
returns null, the normalizer applied to no records yields the empty map,
the component shows the no-data placeholder, and the builder effect is not
invoked.  This is a normal state, not an error. -/
theorem empty_input_no_data :
    chartData none = none ∧
    chartData (some []) = none ∧
    metricsMapUnsorted [] = ([] : MetricsMap) ∧
    view (chartData none) = ViewState.noData ∧
    view (chartData (some [])) = ViewState.noData ∧
    builderInvoked (chartData none) = false ∧
    builderInvoked (chartData (some [])) = false :=
  ⟨rfl, rfl, rfl, rfl, rfl, rfl, rfl⟩

/-- C9: the pipeline (normalizer followed by builder) is a pure function of
its input: two invocations on the same input produce structurally equal
outputs — the same mapping, unified timeline and chart spec. -/
theorem pipeline_deterministic (data : Option (List RawRecord)) :
    (pipelineTwice data).1 = (pipelineTwice data).2 ∧
    pipelineTwice data = (pipeline data, pipeline data) :=
  ⟨rfl, rfl⟩

/-- C8: the pipeline is total (every definition here is a total function of
the documented input type), an unparseable value string parses to NaN, and
value strings are fully isolated: rewriting every reading's value string
arbitrarily changes no metric name, no timeline entry, and no sample's
timestamp or status — one bad sample can only affect its own value. -/
theorem value_parse_isolation (f : String → String) (data : List RawRecord) :
    parseFloat ("abc") = JsNumber.nan ∧
    (∀ name, name ∈ mapKeys (chartDataOf (mapDataValues f data)) ↔
      name ∈ mapKeys (chartDataOf data)) ∧
    sortedTimestamps (chartDataOf (mapDataValues f data)) =
      sortedTimestamps (chartDataOf data) ∧
    ∀ name, (samplesOf (chartDataOf (mapDataValues f data)) name).map sampleShape =
      (samplesOf (chartDataOf data) name).map sampleShape :=
  ⟨rfl, mem_keys_chartDataOf_mapDataValues f data,
    sortedTimestamps_chartDataOf_mapDataValues f data,
    samplesOf_shapes_chartDataOf f data⟩

/-- C2: for a metric of the normalized mapping, the aligned data array has
one entry per unified-timeline position; an entry is a gap marker (`none`)
exactly when the metric has no sample at that exact timestamp, and
otherwise it is the parsed value of a sample of that metric at exactly
that timestamp — never an interpolated or carried-forward value. -/
theorem aligned_series_exact_or_gap (m : MetricsMap) (name : String)
    (series : List Sample) (h : mapGet m name = some series) (i : ℕ) (t : Int)
    (ht : (sortedTimestamps m)[i]? = some t) :
    (seriesData (sortedTimestamps m) series).length =
      (sortedTimestamps m).length ∧
    ∀ e, (seriesData (sortedTimestamps m) series)[i]? = some e →
      ((e = none ↔ ∀ s ∈ series, s.timestamp ≠ t) ∧
       ∀ v, e = some v → ∃ s ∈ series, s.timestamp = t ∧ s.value = v) := by
  constructor
  · exact List.length_map _ _
  · intro e he
    rw [seriesData, List.getElem?_map, ht] at he
    have he2 : e = (dataMapGet series t).map (fun dp => dp.value) := by
      simpa using he.symm
    subst he2
    cases hd : dataMapGet series t with
    | none =>
      have hiff := (dataMapGet_eq_none_iff series t).mp hd
      refine ⟨⟨fun _ => hiff, fun _ => rfl⟩, ?_⟩
      intro v hv
      simp at hv
    | some s =>
      obtain ⟨hmem, hts⟩ := dataMapGet_eq_some series t hd
      refine ⟨⟨?_, ?_⟩, ?_⟩
      · intro hnone
        simp at hnone
      · intro hall
        exact absurd hts (hall s hmem)
      · intro v hv
        simp at hv
        exact ⟨s, hmem, hts, hv⟩

/-- Witness for C2: on the two-record input, mem has a sample only at
timestamp 2000, so at unified position 0 (timestamp 1000) its aligned
entry is the gap marker. -/
theorem aligned_series_exact_or_gap_witness :
    mapGet (chartDataOf [exRecord1, exRecord2]) ("mem") =
      some (samplesOf (chartDataOf [exRecord1, exRecord2]) ("mem")) ∧
    (sortedTimestamps (chartDataOf [exRecord1, exRecord2]))[0]? = some 1000 ∧
    ((seriesData (sortedTimestamps (chartDataOf [exRecord1, exRecord2]))
        (samplesOf (chartDataOf [exRecord1, exRecord2]) ("mem"))).length =
      (sortedTimestamps (chartDataOf [exRecord1, exRecord2])).length ∧
     ∀ e, (seriesData (sortedTimestamps (chartDataOf [exRecord1, exRecord2]))
        (samplesOf (chartDataOf [exRecord1, exRecord2]) ("mem")))[0]? = some e →
      ((e = none ↔ ∀ s ∈ samplesOf (chartDataOf [exRecord1, exRecord2]) ("mem"),
          s.timestamp ≠ 1000) ∧
       ∀ v, e = some v →
        ∃ s ∈ samplesOf (chartDataOf [exRecord1, exRecord2]) ("mem"),
          s.timestamp = 1000 ∧ s.value = v)) :=
  ⟨rfl, rfl,
    aligned_series_exact_or_gap (chartDataOf [exRecord1, exRecord2]) ("mem")
      (samplesOf (chartDataOf [exRecord1, exRecord2]) ("mem")) rfl 0 1000 rfl⟩

/-- C5: every metric series of the normalizer output is sorted
non-decreasing by timestamp, is a permutation of the metric's readings in
arrival order (no sample dropped, no dedup), and for every timestamp the
samples at that timestamp appear exactly in arrival order (the sort is
stable). -/
theorem metric_series_sorted_stable (data : List RawRecord) (name : String)
    (series : List Sample)
    (h : mapGet (chartDataOf data) name = some series) :
    series.Sorted (fun a b => a.timestamp ≤ b.timestamp) ∧
    series.Perm ((data.map (fun r => fieldSamples r.fields name)).flatten) ∧
    ∀ t : Int, series.filter (fun s => s.timestamp = t) =
      ((data.map (fun r => fieldSamples r.fields name)).flatten).filter
        (fun s => s.timestamp = t) := by
  rw [mapGet_chartDataOf] at h
  cases hget : mapGet (metricsMapUnsorted data) name with
  | none => rw [hget] at h; simp at h
  | some l =>
    rw [hget] at h
    have hs : series = sortByTimestamp l := by simpa using h.symm
    have hfl : l = (data.map (fun r => fieldSamples r.fields name)).flatten := by
      have hsamp : samplesOf (metricsMapUnsorted data) name = l := by
        rw [samplesOf, hget]
        rfl
      rw [← hsamp, samplesOf_metricsMapUnsorted]
    subst hs
    subst hfl
    exact ⟨sorted_sortByTimestamp _, perm_sortByTimestamp _,
      fun t => filter_sortByTimestamp t _⟩

/-- Witness for C5: the cpu series of the two-record input. -/
theorem metric_series_sorted_stable_witness :
    mapGet (chartDataOf [exRecord1, exRecord2]) ("cpu") =
      some (samplesOf (chartDataOf [exRecord1, exRecord2]) ("cpu")) ∧
    ((samplesOf (chartDataOf [exRecord1, exRecord2]) ("cpu")).Sorted
      (fun a b => a.timestamp ≤ b.timestamp) ∧
     (samplesOf (chartDataOf [exRecord1, exRecord2]) ("cpu")).Perm
      (([exRecord1, exRecord2].map (fun r => fieldSamples r.fields ("cpu"))).flatten) ∧
     ∀ t : Int,
      (samplesOf (chartDataOf [exRecord1, exRecord2]) ("cpu")).filter
        (fun s => s.timestamp = t) =
      (([exRecord1, exRecord2].map (fun r => fieldSamples r.fields ("cpu"))).flatten).filter
        (fun s => s.timestamp = t)) :=
  ⟨rfl, metric_series_sorted_stable [exRecord1, exRecord2] ("cpu")
    (samplesOf (chartDataOf [exRecord1, exRecord2]) ("cpu")) rfl⟩

/-- C4: for records whose keys are unique (as JS object keys are), the
normalizer output contains exactly the metric names occurring as
non-`category` object-valued keys across the records, and each metric's
series length equals the number of records contributing a valid
object-shaped reading for it; non-object values under non-`category` keys
are skipped. -/
theorem normalizer_names_and_counts (data : List RawRecord)
    (hne : data ≠ [])
    (hkeys : ∀ r ∈ data, (r.fields.map (fun p => p.1)).Nodup) :
    (∀ name, name ∈ mapKeys (chartDataOf data) ↔
      ∃ r ∈ data, contributes r name = true) ∧
    ∀ name series, mapGet (chartDataOf data) name = some series →
      series.length = data.countP (fun r => contributes r name) := by
  constructor
  · intro name
    rw [mem_keys_iff_samplesOf (entries_nonempty_chartDataOf data) name,
      samplesOf_chartDataOf]
    have hperm := perm_sortByTimestamp (samplesOf (metricsMapUnsorted data) name)
    have hnil : sortByTimestamp (samplesOf (metricsMapUnsorted data) name) = [] ↔
        samplesOf (metricsMapUnsorted data) name = [] := by
      constructor
      · intro hn
        rw [hn] at hperm
        exact hperm.symm.eq_nil
      · intro hn
        rw [hn]
        rfl
    rw [ne_eq, hnil, samplesOf_metricsMapUnsorted, List.flatten_eq_nil_iff]
    push_neg
    constructor
    · rintro ⟨l, hl, hlne⟩
      rcases List.mem_map.mp hl with ⟨r, hr, hrl⟩
      subst hrl
      exact ⟨r, hr, (contributes_iff r name).mpr hlne⟩
    · rintro ⟨r, hr, hc⟩
      exact ⟨fieldSamples r.fields name, List.mem_map.mpr ⟨r, hr, rfl⟩,
        (contributes_iff r name).mp hc⟩
  · intro name series h
    rw [mapGet_chartDataOf] at h
    cases hget : mapGet (metricsMapUnsorted data) name with
    | none => rw [hget] at h; simp at h
    | some l =>
      rw [hget] at h
      have hs : series = sortByTimestamp l := by simpa using h.symm
      have hlen : series.length = l.length := by
        rw [hs]
        exact (perm_sortByTimestamp l).length_eq
      have hfl : l = (data.map (fun r => fieldSamples r.fields name)).flatten := by
        have hsamp : samplesOf (metricsMapUnsorted data) name = l := by
          rw [samplesOf, hget]
          rfl
        rw [← hsamp, samplesOf_metricsMapUnsorted]
      rw [hlen, hfl, List.length_flatten, List.map_map,
        ← sum_map_ite_countP (fun r => contributes r name) data]
      congr 1
      apply List.map_congr_left
      intro r hr
      have hcomp : (List.length ∘ fun r : RawRecord => fieldSamples r.fields name) r =
          (fieldSamples r.fields name).length := rfl
      rw [hcomp, length_fieldSamples_of_nodup (hkeys r hr)]
      rfl

/-- Witness for C4: both hypotheses hold on the two-record input and the
conclusion is obtained from the theorem there. -/
theorem normalizer_names_and_counts_witness :
    ([exRecord1, exRecord2] : List RawRecord) ≠ [] ∧
    (∀ r ∈ ([exRecord1, exRecord2] : List RawRecord),
      (r.fields.map (fun p => p.1)).Nodup) ∧
    ((∀ name, name ∈ mapKeys (chartDataOf [exRecord1, exRecord2]) ↔
        ∃ r ∈ ([exRecord1, exRecord2] : List RawRecord), contributes r name = true) ∧
     ∀ name series, mapGet (chartDataOf [exRecord1, exRecord2]) name = some series →
        series.length = ([exRecord1, exRecord2] : List RawRecord).countP
          (fun r => contributes r name)) :=
  ⟨by decide, by decide,
    normalizer_names_and_counts [exRecord1, exRecord2] (by decide) (by decide)⟩

/-- C10: the unified timeline mentions each timestamp at most once, so the
aligned array has exactly one entry for a duplicated timestamp; that entry
is the value of the last sample with that timestamp in the sorted series
(later alignment-map insertions overwrite earlier ones), while the tooltip
`find` renders the first such sample. -/
theorem duplicate_timestamps_alignment (data : List RawRecord) (name : String)
    (series : List Sample)
    (h : mapGet (chartDataOf data) name = some series) :
    (∀ t : Int, (sortedTimestamps (chartDataOf data)).count t ≤ 1) ∧
    seriesData (sortedTimestamps (chartDataOf data)) series =
      (sortedTimestamps (chartDataOf data)).map (fun ts =>
        ((series.filter (fun s => s.timestamp = ts)).getLast?).map
          (fun s => s.value)) ∧
    (∀ t : Int, series.find? (fun s => s.timestamp = t) =
      (series.filter (fun s => s.timestamp = t)).head?) ∧
    ∀ t : Int, ∀ dp : Sample,
      (series.filter (fun s => s.timestamp = t)).head? = some dp →
      ∀ param : TooltipParam, param.seriesName = name →
        tooltipLine (chartDataOf data) t param =
          param.marker ++ " " ++ name ++ ": " ++
            renderJsNumber dp.value ++ " (" ++ dp.status ++ ")<br/>" := by
  refine ⟨?_, ?_, ?_, ?_⟩
  · intro t
    exact List.nodup_iff_count_le_one.mp (nodup_sortedTimestamps _) t
  · rw [seriesData]
    apply List.map_congr_left
    intro ts hts
    rw [dataMapGet_eq_getLast?_filter]
  · intro t
    exact find?_eq_head?_filter _ series
  · intro t dp hdp param hpn
    have hfind : (samplesOf (chartDataOf data) param.seriesName).find?
        (fun s => s.timestamp = t) = some dp := by
      rw [hpn, samplesOf, h, find?_eq_head?_filter]
      exact hdp
    rw [tooltipLine_of_find (chartDataOf data) t param hfind, hpn]

/-- Witness for C10: two cpu readings share timestamp 1000 (statuses GOOD
then WARNING in arrival order); the alignment map yields the WARNING
sample (last), the tooltip `find` yields the GOOD sample (first). -/
theorem duplicate_timestamps_alignment_witness :
    mapGet (chartDataOf [exDupRecord1, exDupRecord2]) ("cpu") =
      some (samplesOf (chartDataOf [exDupRecord1, exDupRecord2]) ("cpu")) ∧
    (samplesOf (chartDataOf [exDupRecord1, exDupRecord2]) ("cpu")).map sampleShape =
      [(1000, "GOOD"), (1000, "WARNING")] ∧
    ((samplesOf (chartDataOf [exDupRecord1, exDupRecord2]) ("cpu")).find?
      (fun s => s.timestamp = 1000)).map (fun s => s.status) = some ("GOOD") ∧
    (dataMapGet (samplesOf (chartDataOf [exDupRecord1, exDupRecord2]) ("cpu"))
      1000).map (fun s => s.status) = some ("WARNING") ∧
    ((∀ t : Int, (sortedTimestamps (chartDataOf [exDupRecord1, exDupRecord2])).count
        t ≤ 1) ∧
     seriesData (sortedTimestamps (chartDataOf [exDupRecord1, exDupRecord2]))
        (samplesOf (chartDataOf [exDupRecord1, exDupRecord2]) ("cpu")) =
      (sortedTimestamps (chartDataOf [exDupRecord1, exDupRecord2])).map (fun ts =>
        (((samplesOf (chartDataOf [exDupRecord1, exDupRecord2]) ("cpu")).filter
          (fun s => s.timestamp = ts)).getLast?).map (fun s => s.value)) ∧
     (∀ t : Int,
      (samplesOf (chartDataOf [exDupRecord1, exDupRecord2]) ("cpu")).find?
        (fun s => s.timestamp = t) =
      ((samplesOf (chartDataOf [exDupRecord1, exDupRecord2]) ("cpu")).filter
        (fun s => s.timestamp = t)).head?) ∧
     ∀ t : Int, ∀ dp : Sample,
      ((samplesOf (chartDataOf [exDupRecord1, exDupRecord2]) ("cpu")).filter
        (fun s => s.timestamp = t)).head? = some dp →
      ∀ param : TooltipParam, param.seriesName = "cpu" →
        tooltipLine (chartDataOf [exDupRecord1, exDupRecord2]) t param =
          param.marker ++ " " ++ "cpu" ++ ": " ++
            renderJsNumber dp.value ++ " (" ++ dp.status ++ ")<br/>") :=
  ⟨rfl, rfl, rfl, rfl,
    duplicate_timestamps_alignment [exDupRecord1, exDupRecord2] ("cpu")
      (samplesOf (chartDataOf [exDupRecord1, exDupRecord2]) ("cpu")) rfl⟩

/-- C6: for a unified timestamp hovered at axis index `i`, with one tooltip
param per metric (as the axis trigger supplies), the formatter output is
the formatted date header followed by the concatenation of one line per
param; a param's line is empty exactly when its metric has no sample at
that exact timestamp, a line that does appear shows the metric name, the
first matching sample's value and its status, and the number of non-empty
lines equals the number of metrics with a sample at that timestamp. -/
theorem tooltip_lines_spec (m : MetricsMap) (i : ℕ) (t : Int)
    (params : List TooltipParam)
    (hne : params ≠ [])
    (hidx : ∀ p ∈ params, p.dataIndex = i)
    (ht : (sortedTimestamps m)[i]? = some t)
    (hcov : params.map (fun p => p.seriesName) = mapKeys m) :
    tooltipFormatter m (sortedTimestamps m) params =
      formatDateTime t ++ "<br/>" ++ joinStrings (params.map (tooltipLine m t)) ∧
    (∀ p ∈ params, (tooltipLine m t p = "" ↔
      hasSampleAt m p.seriesName t = false)) ∧
    (∀ p ∈ params, ∀ dp : Sample,
      (samplesOf m p.seriesName).find? (fun s => s.timestamp = t) = some dp →
        dp ∈ samplesOf m p.seriesName ∧ dp.timestamp = t ∧
        tooltipLine m t p = p.marker ++ " " ++ p.seriesName ++ ": " ++
          renderJsNumber dp.value ++ " (" ++ dp.status ++ ")<br/>") ∧
    params.countP (fun p => hasSampleAt m p.seriesName t) =
      (mapKeys m).countP (fun name => hasSampleAt m name t) := by
  refine ⟨?_, ?_, ?_, ?_⟩
  · cases hp : params with
    | nil => exact absurd hp hne
    | cons p₀ rest =>
      have hi0 : p₀.dataIndex = i := by
        apply hidx
        rw [hp]
        exact List.mem_cons_self _ _
      have htd : (sortedTimestamps m).getD p₀.dataIndex 0 = t := by
        rw [hi0, List.getD_eq_getElem?_getD, ht]
        rfl
      have hunfold : tooltipFormatter m (sortedTimestamps m) (p₀ :: rest) =
          (p₀ :: rest).foldl (fun result param =>
            result ++ tooltipLine m ((sortedTimestamps m).getD p₀.dataIndex 0) param)
            (formatDateTime ((sortedTimestamps m).getD p₀.dataIndex 0) ++ "<br/>") :=
        rfl
      rw [hunfold, htd, foldl_append_tooltipLine]
  · intro p _
    exact tooltipLine_eq_empty_iff m t p
  · intro p _ dp hfind
    refine ⟨List.mem_of_find?_eq_some hfind, ?_, tooltipLine_of_find m t p hfind⟩
    have hts := List.find?_some hfind
    simpa using hts
  · rw [← hcov, List.countP_map]
    rfl

/-- Witness for C6: hovering unified index 1 (timestamp 2000) of the
two-record input with one param per metric. -/
theorem tooltip_lines_spec_witness :
    ([(⟨"cpu", 1, "mk1"⟩ : TooltipParam), ⟨"mem", 1, "mk2"⟩] :
      List TooltipParam) ≠ [] ∧
    (∀ p ∈ ([(⟨"cpu", 1, "mk1"⟩ : TooltipParam), ⟨"mem", 1, "mk2"⟩] :
      List TooltipParam), p.dataIndex = 1) ∧
    (sortedTimestamps (chartDataOf [exRecord1, exRecord2]))[1]? = some 2000 ∧
    ([(⟨"cpu", 1, "mk1"⟩ : TooltipParam), ⟨"mem", 1, "mk2"⟩] :
      List TooltipParam).map (fun p => p.seriesName) =
      mapKeys (chartDataOf [exRecord1, exRecord2]) ∧
    (tooltipFormatter (chartDataOf [exRecord1, exRecord2])
        (sortedTimestamps (chartDataOf [exRecord1, exRecord2]))
        [⟨"cpu", 1, "mk1"⟩, ⟨"mem", 1, "mk2"⟩] =
      formatDateTime 2000 ++ "<br/>" ++
        joinStrings (([(⟨"cpu", 1, "mk1"⟩ : TooltipParam), ⟨"mem", 1, "mk2"⟩] :
          List TooltipParam).map
          (tooltipLine (chartDataOf [exRecord1, exRecord2]) 2000)) ∧
     (∀ p ∈ ([(⟨"cpu", 1, "mk1"⟩ : TooltipParam), ⟨"mem", 1, "mk2"⟩] :
        List TooltipParam),
      (tooltipLine (chartDataOf [exRecord1, exRecord2]) 2000 p = "" ↔
        hasSampleAt (chartDataOf [exRecord1, exRecord2]) p.seriesName 2000 =
          false)) ∧
     (∀ p ∈ ([(⟨"cpu", 1, "mk1"⟩ : TooltipParam), ⟨"mem", 1, "mk2"⟩] :
        List TooltipParam), ∀ dp : Sample,
      (samplesOf (chartDataOf [exRecord1, exRecord2]) p.seriesName).find?
        (fun s => s.timestamp = 2000) = some dp →
        dp ∈ samplesOf (chartDataOf [exRecord1, exRecord2]) p.seriesName ∧
        dp.timestamp = 2000 ∧
        tooltipLine (chartDataOf [exRecord1, exRecord2]) 2000 p =
          p.marker ++ " " ++ p.seriesName ++ ": " ++
            renderJsNumber dp.value ++ " (" ++ dp.status ++ ")<br/>") ∧
     ([(⟨"cpu", 1, "mk1"⟩ : TooltipParam), ⟨"mem", 1, "mk2"⟩] :
        List TooltipParam).countP
        (fun p => hasSampleAt (chartDataOf [exRecord1, exRecord2]) p.seriesName
          2000) =
      (mapKeys (chartDataOf [exRecord1, exRecord2])).countP
        (fun name => hasSampleAt (chartDataOf [exRecord1, exRecord2]) name 2000)) :=
  ⟨by decide, by decide, rfl, rfl,
    tooltip_lines_spec (chartDataOf [exRecord1, exRecord2]) 1 2000
      [⟨"cpu", 1, "mk1"⟩, ⟨"mem", 1, "mk2"⟩] (by decide) (by decide) rfl rfl⟩
